import Mathlib

/-!
Verification of the dagger buildkit client (`dagger/client.go`).

The Go code is shallowly embedded: Go strings are modelled as `List Char`
(the inputs of interest are ASCII, so byte indices and character indices
coincide), Go string slicing `s[lo:hi]` is modelled by `sliceGo`, which
returns `none` exactly when Go would panic with "slice bounds out of
range", and fallible operations return `Option`/`Except`.  External
collaborators that live outside `dagger/client.go` (the cue compiler's
value merging, `bkCleanError`, `compiler.Err`, the progressui dispatch
loop, `filepath.Abs`) are modelled from the specification and are marked
as such in their doc comments.
-/

namespace Dagger

/-! ## Connection manager (`NewClient`, client.go:39-53) -/

/-- `defaultBuildkitHost` constant (client.go:31). -/
def defaultBuildkitHost : String := "docker-container://buildkitd"

/-- Host resolution performed by `NewClient` (client.go:40-45): an empty
explicit host falls back to the `BUILDKIT_HOST` environment value (empty
when unset), and an empty result of that falls back to the built-in
default.  `envHost` is the result of `os.Getenv("BUILDKIT_HOST")`. -/
def resolveHost (host envHost : String) : String :=
  let h1 := if host = "" then envHost else host
  if h1 = "" then defaultBuildkitHost else h1

/-! ## Progress reporter (`logSolveStatus`, client.go:196-260) -/

/-- Go string slicing `s[lo:hi]`: `none` models the Go runtime panic
"slice bounds out of range" raised when `lo > hi` or `hi > len(s)`. -/
def sliceGo (s : List Char) (lo hi : Nat) : Option (List Char) :=
  if lo ≤ hi ∧ hi ≤ s.length then some ((s.drop lo).take (hi - lo)) else none

/-- `strings.Index(s, needle)` for a one-character needle: index of the
first occurrence, `none` for Go's `-1`. -/
def indexOfChar (needle : Char) : List Char → Option Nat
  | [] => none
  | x :: xs =>
    if x = needle then some 0 else (indexOfChar needle xs).map (fun n => n + 1)

/-- The `parseName` closure (client.go:197-210).  Faithful to the source:
the guard only rejects names shorter than 2 or without a leading `@`;
`component = Name[1 : prefixEndPos+1]` and
`message = Name[prefixEndPos+3 : len(Name)]` are Go slices, so the result
is `none` (a Go panic) when the second slice is out of range, which
happens exactly when the second `@` is the last character. -/
def parseName (name : List Char) : Option (List Char × List Char) :=
  if name.length < 2 ∨ name.head? ≠ some '@' then
    some ([], name)
  else
    match indexOfChar '@' (name.drop 1) with
    | none => some ([], name)
    | some prefixEndPos =>
      match sliceGo name 1 (prefixEndPos + 1),
            sliceGo name (prefixEndPos + 3) name.length with
      | some component, some msg => some (component, msg)
      | _, _ => none

/-- Severity of an emitted structured log record. -/
inductive Severity where
  | debug
  | info
  | error
deriving DecidableEq, Repr

/-- One structured log record: {component, severity, message}. -/
structure LogRecord where
  severity : Severity
  component : List Char
  message : List Char
deriving DecidableEq, Repr

/-- A buildkit vertex as seen by the reporter callbacks: name and digest
(both printed with `%s`). -/
structure Vertex where
  Name : List Char
  Digest : List Char

/-- `fmt.Sprintf("#%d %s\n", index, s)` (client.go:223, 226). -/
def fmtIndexed (index : Int) (s : List Char) : List Char :=
  ('#' :: (toString index).toList) ++ (' ' :: s) ++ ['\n']

/-- Modelled from the spec: `progressui.PrintSolveStatus` (outside
`client.go`) invokes the per-vertex callback once per status update.
This is the body of that callback (client.go:213-227): it emits two
debug records, one with the index and parsed message, one with the index
and digest, both tagged with the parsed component.  `none` models the
`parseName` panic propagating out of the callback. -/
def vertexCb (v : Vertex) (index : Int) : Option (List LogRecord) :=
  (parseName v.Name).map fun cn =>
    [⟨Severity.debug, cn.1, fmtIndexed index cn.2⟩,
     ⟨Severity.debug, cn.1, fmtIndexed index v.Digest⟩]

/-- The per-log-line callback (client.go:228-239): one debug record with
the formatted message (`msg` stands for `fmt.Sprintf(format, a...)`). -/
def logCb (v : Vertex) (msg : List Char) : Option (List LogRecord) :=
  (parseName v.Name).map fun cn => [⟨Severity.debug, cn.1, msg⟩]

/-- The per-stream-write callback (client.go:240-258): stream 1 emits one
informational record, stream 2 one error record, and any other stream
index falls through the `switch` and emits nothing. -/
def streamCb (v : Vertex) (stream : Int) (msg : List Char) :
    Option (List LogRecord) :=
  (parseName v.Name).map fun cn =>
    if stream = 1 then [⟨Severity.info, cn.1, msg⟩]
    else if stream = 2 then [⟨Severity.error, cn.1, msg⟩]
    else []

/-! ## Output collector (`Client.outputfn`, client.go:157-194) -/

/-- A path inside the exported tar stream / the result value. -/
abbrev Path := List Char

/-- Modelled from the spec: the compiler package's `*compiler.Value`
("a hierarchical, mergeable data representation") is modelled as a
finite-support map from paths to atomic values; merging is rejected,
not silently overwritten, on a conflicting value at an existing path. -/
abbrev RVal := Path → Option Nat

/-- Modelled from the spec: `compiler.EmptyStruct()` — the empty
accumulating ResultValue (client.go:162). -/
def emptyStruct : RVal := fun _ => none

/-- Updating one path of a result value. -/
def rvInsert (k : Path) (x : Nat) (v : RVal) : RVal :=
  fun q => if q = k then some x else v q

/-- Modelled from the spec: merging one binding into the accumulator;
a different value already present at the path is a conflict and is
rejected (`none`). -/
def fillOne (acc : RVal) (k : Path) (x : Nat) : Option RVal :=
  match acc k with
  | none => some (rvInsert k x acc)
  | some y => if y = x then some acc else none

/-- Modelled from the spec: `Value.Fill` — merge a decoded structured
unit (a list of path/value bindings) into the accumulator, rejecting the
merge on the first conflict. -/
def fill (acc : RVal) : List (Path × Nat) → Option RVal
  | [] => some acc
  | b :: bs =>
    match fillOne acc b.1 b.2 with
    | none => none
    | some acc2 => fill acc2 bs

/-- One item of the tar export stream as seen by `outputfn`'s loop:
either a readable entry (whose bytes decode to `some` bindings, or to
`none` when `compiler.Compile` rejects them), or a read failure of the
tar stream itself.  Clean end-of-stream is the end of the list. -/
inductive TarItem where
  | entry (name : Path) (src : Option (List (Path × Nat)))
  | corrupt (msg : List Char)

/-- The errors `outputfn` can return: a tar read failure wrapped as
"read tar stream: ..." (client.go:171), a decode failure from
`compiler.Compile` (client.go:185-188), or a merge rejection wrapped
with the offending entry's name (client.go:189-191). -/
inductive OutErr where
  | streamRead (msg : List Char)
  | decode (name : Path)
  | merge (name : Path)
deriving DecidableEq, Repr

/-- `strings.HasSuffix(h.Name, ".cue")` (client.go:179). -/
def hasCueSuffix (name : Path) : Bool :=
  List.isSuffixOf (".cue".toList) name

/-- The loop of `Client.outputfn` (client.go:164-193), parameterised by
the current accumulator: a read error aborts with `streamRead`; an entry
without the `.cue` suffix is skipped; otherwise the entry is decoded
(`decode` error on failure) and merged (`merge` error, carrying the
entry name, on rejection); the end of the stream returns the
accumulator. -/
def outputfnFrom (acc : RVal) : List TarItem → Except OutErr RVal
  | [] => Except.ok acc
  | TarItem.corrupt m :: _ => Except.error (OutErr.streamRead m)
  | TarItem.entry name src :: rest =>
    if hasCueSuffix name then
      match src with
      | none => Except.error (OutErr.decode name)
      | some bs =>
        match fill acc bs with
        | none => Except.error (OutErr.merge name)
        | some acc2 => outputfnFrom acc2 rest
    else outputfnFrom acc rest

/-- `Client.outputfn` (client.go:158-194): run the loop starting from
the empty ResultValue. -/
def outputfn (s : List TarItem) : Except OutErr RVal :=
  outputfnFrom emptyStruct s

/-! ## Build submitter (`Client.buildfn`, client.go:90-155) -/

/-- The errors `buildfn` can return: a path-resolution failure from
`filepath.Abs` (client.go:96-99), or a backend solve failure wrapped
as "buildkit solve: ..." after `bkCleanError` (client.go:143-145). -/
inductive BuildErr where
  | pathResolution (msg : List Char)
  | solve (msg : List Char)
deriving DecidableEq, Repr

/-- Modelled from the spec: `bkCleanError` (outside `client.go`) is a
normalization step stripping backend-internal noise from a solve error;
the message content it produces is abstracted as the identity here. -/
def bkCleanErrorModel (e : List Char) : List Char := e

/-- The local-directory resolution loop of `buildfn` (client.go:94-101):
each binding's directory is resolved by `filepath.Abs` (abstracted as
the `abs` argument, with `Except.error` for a failure); the first
failure is returned and stops the loop. -/
def resolveDirs (abs : List Char → Except (List Char) (List Char)) :
    List (List Char × List Char) → Except (List Char) (List (List Char × List Char))
  | [] => Except.ok []
  | (label, dir) :: rest =>
    match abs dir with
    | Except.error e => Except.error e
    | Except.ok a =>
      match resolveDirs abs rest with
      | Except.error e => Except.error e
      | Except.ok rs => Except.ok ((label, a) :: rs)

/-- Outcome of one `buildfn` call: the returned error (if any) and
whether the backend's build entrypoint `c.c.Build` was invoked. -/
structure BuildfnOutcome where
  err : Option BuildErr
  backendCalled : Bool
deriving DecidableEq, Repr

/-- `Client.buildfn` (client.go:90-155): resolve every local directory
binding first, returning the resolution error without touching the
backend on failure; then invoke the backend (abstracted as `backend`,
returning `some` message on solve failure) on the resolved bindings and
wrap its failure via the `bkCleanError` normalization. -/
def buildfn (abs : List Char → Except (List Char) (List Char))
    (dirs : List (List Char × List Char))
    (backend : List (List Char × List Char) → Option (List Char)) :
    BuildfnOutcome :=
  match resolveDirs abs dirs with
  | Except.error e => ⟨some (BuildErr.pathResolution e), false⟩
  | Except.ok rdirs =>
    match backend rdirs with
    | some e => ⟨some (BuildErr.solve (bkCleanErrorModel e)), true⟩
    | none => ⟨none, true⟩

/-! ## Compute orchestrator (`Client.Compute`, client.go:56-88) -/

/-- The local results of the three goroutines spawned by `Compute`:
the progress forwarder's error, the build submitter's error, and the
output collector's assignment `out, err = c.outputfn(...)`
(client.go:81-85). -/
structure TaskResults where
  logErr : Option (List Char)
  buildErr : Option (List Char)
  outVal : Option RVal
  outErr : Option (List Char)

/-- `errgroup.Wait`: the first non-nil error in goroutine completion
order (completion order is scheduling-dependent and is passed in as the
list). -/
def firstSome : List (Option (List Char)) → Option (List Char)
  | [] => none
  | some e :: _ => some e
  | none :: rest => firstSome rest

/-- Modelled from the spec: `compiler.Err` (outside `client.go`)
normalizes the error of `eg.Wait()`; per the spec the return of
`compute` is "the first non-nil error", so the normalization preserves
the error and is the identity here. -/
def compilerErr (e : Option (List Char)) : Option (List Char) := e

/-- `Client.Compute` (client.go:56-88): after all three goroutines have
completed (with local results `t`, completing in the order `order`), it
returns the pair `(out, compiler.Err(eg.Wait()))` — the collector's
assigned value together with the first non-nil task error. -/
def computeGo (t : TaskResults) (order : List (Option (List Char))) :
    Option RVal × Option (List Char) :=
  (t.outVal, compilerErr (firstSome order))

/-! ## Helper lemmas -/

theorem indexOfChar_append_cons (needle : Char) (c t : List Char)
    (hc : needle ∉ c) :
    indexOfChar needle (c ++ needle :: t) = some c.length := by
  induction c with
  | nil => simp [indexOfChar]
  | cons a c ih =>
    have ha : ¬ (a = needle) := fun h => hc (by simp [h])
    have hc2 : needle ∉ c := fun h => hc (by simp [h])
    simp [indexOfChar, ha, ih hc2]

theorem indexOfChar_eq_none (needle : Char) (l : List Char)
    (h : needle ∉ l) :
    indexOfChar needle l = none := by
  induction l with
  | nil => rfl
  | cons a l ih =>
    have ha : ¬ (a = needle) := fun hh => h (by simp [hh])
    have h2 : needle ∉ l := fun hh => h (by simp [hh])
    simp [indexOfChar, ha, ih h2]

theorem take_len_append {α : Type} (c t : List α) :
    (c ++ t).take c.length = c := by
  induction c with
  | nil => rfl
  | cons a c ih => simp [ih]

theorem drop_len_add_append {α : Type} (c t : List α) (k : Nat) :
    (c ++ t).drop (c.length + k) = t.drop k := by
  induction c with
  | nil => simp
  | cons a c ih => simp [Nat.succ_add, ih]

theorem parseName_tagged_aux (c rest : List Char) (sep : Char)
    (hc : '@' ∉ c) :
    parseName ('@' :: (c ++ '@' :: sep :: rest)) = some (c, rest) := by
  have hlen : ('@' :: (c ++ '@' :: sep :: rest)).length
      = c.length + rest.length + 3 := by
    simp [List.length_append]
    omega
  have hguard : ¬ (('@' :: (c ++ '@' :: sep :: rest)).length < 2 ∨
      ('@' :: (c ++ '@' :: sep :: rest)).head? ≠ some '@') := by
    push_neg
    refine ⟨by omega, rfl⟩
  have hdrop1 : ('@' :: (c ++ '@' :: sep :: rest)).drop 1
      = c ++ '@' :: sep :: rest := rfl
  unfold parseName
  rw [if_neg hguard, hdrop1, indexOfChar_append_cons '@' c _ hc]
  have hs1 : sliceGo ('@' :: (c ++ '@' :: sep :: rest)) 1 (c.length + 1)
      = some c := by
    unfold sliceGo
    rw [if_pos (by constructor <;> omega)]
    rw [hdrop1]
    have : c.length + 1 - 1 = c.length := by omega
    rw [this, take_len_append]
  have hs2 : sliceGo ('@' :: (c ++ '@' :: sep :: rest)) (c.length + 3)
      (('@' :: (c ++ '@' :: sep :: rest)).length) = some rest := by
    unfold sliceGo
    rw [if_pos (by constructor <;> omega)]
    have hd : ('@' :: (c ++ '@' :: sep :: rest)).drop (c.length + 3)
        = rest := by
      have h1 : ('@' :: (c ++ '@' :: sep :: rest)).drop (c.length + 3)
          = (c ++ '@' :: sep :: rest).drop (c.length + 2) := by
        have : c.length + 3 = c.length + 2 + 1 := by omega
        rw [this, List.drop_succ_cons]
      rw [h1, drop_len_add_append]
      rfl
    rw [hd]
    have ht : ('@' :: (c ++ '@' :: sep :: rest)).length - (c.length + 3)
        = rest.length := by omega
    rw [ht, List.take_length]
  simp only [hs1, hs2]

theorem parseName_untagged_aux (name : List Char)
    (h : name.length < 2 ∨ name.head? ≠ some '@' ∨ '@' ∉ name.drop 1) :
    parseName name = some ([], name) := by
  by_cases hg : name.length < 2 ∨ name.head? ≠ some '@'
  · unfold parseName
    rw [if_pos hg]
  · have h3 : '@' ∉ name.drop 1 := by
      rcases h with h | h | h
      · exact absurd (Or.inl h) hg
      · exact absurd (Or.inr h) hg
      · exact h
    unfold parseName
    rw [if_neg hg, indexOfChar_eq_none '@' _ h3]

/-! ## Claims -/

/-- C10: `NewClient` resolves the backend host in this order — the
explicit argument when non-empty; otherwise the `BUILDKIT_HOST`
environment value when non-empty (it is empty when unset); otherwise the
built-in default pointing at the well-known local containerized backend
`docker-container://buildkitd`. -/
theorem C10_host_resolution (host envHost : String) :
    (host ≠ "" → resolveHost host envHost = host) ∧
    (host = "" → envHost ≠ "" → resolveHost host envHost = envHost) ∧
    (host = "" → envHost = "" → resolveHost host envHost = defaultBuildkitHost) := by
  refine ⟨fun h => ?_, fun h h2 => ?_, fun h h2 => ?_⟩
  · simp [resolveHost, h]
  · simp [resolveHost, h, h2]
  · simp [resolveHost, h, h2]

/-- C10 witness: the three resolution cases at concrete hosts. -/
theorem C10_host_resolution_witness :
    resolveHost "tcp://1.2.3.4:1234" "unix:///run/bk.sock" = "tcp://1.2.3.4:1234" ∧
    resolveHost "" "unix:///run/bk.sock" = "unix:///run/bk.sock" ∧
    resolveHost "" "" = defaultBuildkitHost :=
  ⟨(C10_host_resolution "tcp://1.2.3.4:1234" "unix:///run/bk.sock").1 (by decide),
   (C10_host_resolution "" "unix:///run/bk.sock").2.1 rfl (by decide),
   (C10_host_resolution "" "").2.2 rfl rfl⟩

/-- C3: tag parsing is not total.  On the name "@@" — a second `@` is
found when searching from position 1, but it is the final character —
the code computes the Go slice `Name[3:2]`, which is out of range, so
`parseName` faults (returns `none`, modelling the runtime panic) instead
of returning a pair.  This contradicts the function's own comment that
the minimal pattern length is `len("@X@ ")` (= 4), which the guard
`len(v.Name) < 2` fails to enforce. -/
theorem C3_parseName_not_total : parseName ('@' :: '@' :: []) = none := by
  decide

/-- C2 counterexample: "@c@" has at least two characters, starts with
`@`, and a second `@` is found after position 1, so the claim requires
the result (component "c", message "") — but `parseName` faults on it
(the Go slice `Name[4:3]` is out of range) and returns no pair at
all. -/
theorem C2_counterexample :
    parseName ('@' :: 'c' :: '@' :: []) = none ∧
    parseName ('@' :: 'c' :: '@' :: []) ≠ some (['c'], []) := by
  decide

/-- C2 (amended): for every name of the form `@c@` + separator + rest —
i.e. with at least one character after the closing `@` — tag parsing
returns component `c` and message `rest` (the remainder after the
closing `@` plus one separator character); for every name that is too
short, does not start with `@`, or has no second `@`, it returns
component "" and the full name as the message.  (As stated the claim
also covered names whose second `@` is the final character; on those
`parseName` faults, see the counterexample.) -/
theorem C2_parseName (c rest : List Char) (sep : Char) (name : List Char)
    (hc : '@' ∉ c)
    (hn : name.length < 2 ∨ name.head? ≠ some '@' ∨ '@' ∉ name.drop 1) :
    parseName ('@' :: (c ++ '@' :: sep :: rest)) = some (c, rest) ∧
    parseName name = some ([], name) :=
  ⟨parseName_tagged_aux c rest sep hc, parseName_untagged_aux name hn⟩

/-- C2 witness: a tagged name "@cue@ hi" parses to ("cue", "hi") and an
untagged name "vertex 1" is passed through unchanged. -/
theorem C2_parseName_witness :
    parseName ('@' :: ("cue".toList ++ '@' :: ' ' :: "hi".toList))
      = some ("cue".toList, "hi".toList) ∧
    parseName ("vertex 1".toList) = some ([], "vertex 1".toList) :=
  C2_parseName "cue".toList "hi".toList ' ' ("vertex 1".toList)
    (by decide) (by decide)

/-- C4 counterexample: on a status update for the vertex named
"@cue@ exec" with digest "sha256:abc" at index 7, the reporter emits TWO
log records (one with the index and parsed message, one with the index
and digest), not exactly one record containing all three fields. -/
theorem C4_counterexample :
    (vertexCb ⟨"@cue@ exec".toList, "sha256:abc".toList⟩ 7).map List.length
      = some 2 ∧
    (vertexCb ⟨"@cue@ exec".toList, "sha256:abc".toList⟩ 7).map List.length
      ≠ some 1 := by
  decide

/-- C4 (amended): for every status-update progress event whose name
parses (to component `comp` and message `msg`), the reporter emits
exactly two log records, both at severity debug and tagged with the
component: the first containing the vertex index and the parsed message,
the second the vertex index and the digest. -/
theorem C4_vertex_records (v : Vertex) (index : Int) (comp msg : List Char)
    (h : parseName v.Name = some (comp, msg)) :
    vertexCb v index =
      some [⟨Severity.debug, comp, fmtIndexed index msg⟩,
            ⟨Severity.debug, comp, fmtIndexed index v.Digest⟩] ∧
    ∀ l, vertexCb v index = some l →
      l.length = 2 ∧ ∀ r ∈ l, r.severity = Severity.debug ∧ r.component = comp := by
  have h1 : vertexCb v index =
      some [⟨Severity.debug, comp, fmtIndexed index msg⟩,
            ⟨Severity.debug, comp, fmtIndexed index v.Digest⟩] := by
    simp [vertexCb, h]
  refine ⟨h1, ?_⟩
  intro l hl
  rw [h1, Option.some_inj] at hl
  subst hl
  refine ⟨rfl, ?_⟩
  intro r hr
  simp at hr
  rcases hr with h' | h' <;> subst h' <;> exact ⟨rfl, rfl⟩

/-- C4 witness: the two records emitted for the vertex "@cue@ exec" at
index 7. -/
theorem C4_vertex_records_witness :
    vertexCb ⟨"@cue@ exec".toList, "sha256:abc".toList⟩ 7 =
      some [⟨Severity.debug, "cue".toList, fmtIndexed 7 "exec".toList⟩,
            ⟨Severity.debug, "cue".toList, fmtIndexed 7 "sha256:abc".toList⟩] :=
  (C4_vertex_records ⟨"@cue@ exec".toList, "sha256:abc".toList⟩ 7
    "cue".toList "exec".toList (by decide)).1

/-- C5 counterexample: the claim as stated fails on a stream-write event
for the vertex named "@@": the callback calls `parseName` before the
stream `switch` (client.go:241), and on "@@" `parseName` faults (the Go
slice `Name[3:2]` is out of range), so a stream-index-3 event produces a
crash — not "no log record and no error" (`some []`). -/
theorem C5_counterexample :
    streamCb ⟨"@@".toList, "sha256:abc".toList⟩ 3 "out".toList = none ∧
    streamCb ⟨"@@".toList, "sha256:abc".toList⟩ 3 "out".toList
      ≠ some [] := by
  decide

/-- C5 (amended): for every stream-write progress event whose vertex
name parses without fault, stream index 1 produces exactly one record at
informational severity, stream index 2 produces exactly one record at
error severity, and any other stream index produces no log record and no
error.  (Events whose name parsing faults crash in `parseName` before
the stream switch, see the counterexample and C3.) -/
theorem C5_stream_dispatch (v : Vertex) (comp nm msg : List Char)
    (h : parseName v.Name = some (comp, nm)) :
    streamCb v 1 msg = some [⟨Severity.info, comp, msg⟩] ∧
    streamCb v 2 msg = some [⟨Severity.error, comp, msg⟩] ∧
    ∀ s : Int, s ≠ 1 → s ≠ 2 → streamCb v s msg = some [] := by
  refine ⟨by simp [streamCb, h], by simp [streamCb, h], ?_⟩
  intro s h1 h2
  simp [streamCb, h, h1, h2]

/-- C5 witness: streams 1, 2 and 3 for the vertex "@cue@ exec". -/
theorem C5_stream_dispatch_witness :
    streamCb ⟨"@cue@ exec".toList, "sha256:abc".toList⟩ 1 "out".toList
      = some [⟨Severity.info, "cue".toList, "out".toList⟩] ∧
    streamCb ⟨"@cue@ exec".toList, "sha256:abc".toList⟩ 2 "out".toList
      = some [⟨Severity.error, "cue".toList, "out".toList⟩] ∧
    streamCb ⟨"@cue@ exec".toList, "sha256:abc".toList⟩ 3 "out".toList
      = some [] := by
  obtain ⟨a, b, c⟩ := C5_stream_dispatch
    ⟨"@cue@ exec".toList, "sha256:abc".toList⟩
    "cue".toList "exec".toList "out".toList (by decide)
  exact ⟨a, b, c 3 (by decide) (by decide)⟩

theorem outputfnFrom_all_skip (s : List TarItem) (acc : RVal)
    (hs : ∀ it ∈ s, ∃ name src,
      it = TarItem.entry name src ∧ hasCueSuffix name = false) :
    outputfnFrom acc s = Except.ok acc := by
  induction s with
  | nil => rfl
  | cons it rest ih =>
    obtain ⟨name, src, hit, hn⟩ := hs it (by simp)
    subst hit
    have hstep : outputfnFrom acc (TarItem.entry name src :: rest)
        = outputfnFrom acc rest := by
      simp [outputfnFrom, hn]
    rw [hstep, ih (fun x hx => hs x (by simp [hx]))]

/-- C6: the collector starts from the empty ResultValue and processes
entries in stream order; a clean end-of-stream returns the accumulator
successfully; every entry whose path lacks the ".cue" extension is
skipped without error; hence a stream containing only non-matching
entries yields the empty ResultValue and no error. -/
theorem C6_skip_non_cue :
    (∀ acc : RVal, outputfnFrom acc [] = Except.ok acc) ∧
    (∀ (acc : RVal) (name : Path) (src : Option (List (Path × Nat)))
        (rest : List TarItem), hasCueSuffix name = false →
      outputfnFrom acc (TarItem.entry name src :: rest)
        = outputfnFrom acc rest) ∧
    (∀ s : List TarItem,
      (∀ it ∈ s, ∃ name src,
        it = TarItem.entry name src ∧ hasCueSuffix name = false) →
      outputfn s = Except.ok emptyStruct) := by
  refine ⟨fun acc => rfl,
    fun acc name src rest h => by simp [outputfnFrom, h],
    fun s hs => outputfnFrom_all_skip s emptyStruct hs⟩

/-- C6 witness: a stream of two non-cue entries yields the empty
ResultValue and no error. -/
theorem C6_skip_non_cue_witness :
    outputfn [TarItem.entry ("README.md".toList) none,
              TarItem.entry ("main.go".toList) (some [(['x'], 1)])]
      = Except.ok emptyStruct :=
  C6_skip_non_cue.2.2 _ (by
    intro it hit
    simp at hit
    rcases hit with h | h <;> subst h
    · exact ⟨_, _, rfl, by decide⟩
    · exact ⟨_, _, rfl, by decide⟩)

/-- C7: when merging a decoded entry into the accumulator is rejected
(conflicting value at an existing path, `fill` returns `none`),
collection aborts with a merge error that retains the offending entry's
path, and no ResultValue is returned (the result is `Except.error`). -/
theorem C7_merge_rejection (acc : RVal) (name : Path)
    (bs : List (Path × Nat)) (rest : List TarItem)
    (hcue : hasCueSuffix name = true) (hfill : fill acc bs = none) :
    outputfnFrom acc (TarItem.entry name (some bs) :: rest)
      = Except.error (OutErr.merge name) := by
  simp [outputfnFrom, hcue, hfill]

/-- C7 witness: an accumulator holding 1 at path "x" and an entry
"conflict.cue" binding "x" to 2 — the merge is rejected and collection
aborts with the entry's name in the error. -/
theorem C7_merge_rejection_witness :
    fill (rvInsert ['x'] 1 emptyStruct) [(['x'], 2)] = none ∧
    outputfnFrom (rvInsert ['x'] 1 emptyStruct)
      [TarItem.entry ("conflict.cue".toList) (some [(['x'], 2)])]
      = Except.error (OutErr.merge ("conflict.cue".toList)) :=
  ⟨rfl, C7_merge_rejection _ _ _ _ (by decide) rfl⟩

theorem firstSome_eq_none_iff (l : List (Option (List Char))) :
    firstSome l = none ↔ ∀ x ∈ l, x = none := by
  induction l with
  | nil => simp [firstSome]
  | cons x rest ih =>
    cases x with
    | none => simp [firstSome, ih]
    | some e => simp [firstSome]

theorem firstSome_mem (l : List (Option (List Char))) (e : List Char)
    (h : firstSome l = some e) : some e ∈ l := by
  induction l with
  | nil => simp [firstSome] at h
  | cons x rest ih =>
    cases x with
    | none =>
      simp only [firstSome] at h
      exact List.mem_cons_of_mem _ (ih h)
    | some e2 =>
      simp only [firstSome, Option.some_inj] at h
      subst h
      exact List.mem_cons_self _ _

/-- C1 counterexample: the build task fails with "buildkit solve: boom"
while the collector succeeds — on the build task's exit the deferred
close of the pipe's write end makes the collector see a clean EOF, so it
assigns the empty accumulator with a nil error.  `Compute` then returns
BOTH a non-nil error and a non-nil ResultValue, contradicting "the
returned value is nil whenever the returned error is non-nil"; the shown
completion order is a permutation of the three task errors, so it is a
reachable schedule. -/
theorem C1_counterexample :
    ([some ("buildkit solve: boom".toList), none, none]).Perm
      [(⟨none, some ("buildkit solve: boom".toList), some emptyStruct, none⟩ :
          TaskResults).logErr,
       (⟨none, some ("buildkit solve: boom".toList), some emptyStruct, none⟩ :
          TaskResults).buildErr,
       (⟨none, some ("buildkit solve: boom".toList), some emptyStruct, none⟩ :
          TaskResults).outErr] ∧
    (computeGo ⟨none, some ("buildkit solve: boom".toList), some emptyStruct, none⟩
      [some ("buildkit solve: boom".toList), none, none]).2
      = some ("buildkit solve: boom".toList) ∧
    (computeGo ⟨none, some ("buildkit solve: boom".toList), some emptyStruct, none⟩
      [some ("buildkit solve: boom".toList), none, none]).1 ≠ none := by
  refine ⟨by decide, rfl, by simp [computeGo]⟩

/-- C1 (amended): after all three tasks complete, `Compute` returns
exactly one error — the first non-nil task error in completion order —
which is nil iff all three tasks succeeded and is always one of the
three task errors; the returned ResultValue is exactly the collector's
assigned value, which is undefined (not forced to be nil) when the
returned error is non-nil. -/
theorem C1_compute_first_error (t : TaskResults)
    (order : List (Option (List Char)))
    (h : order.Perm [t.logErr, t.buildErr, t.outErr]) :
    ((computeGo t order).2 = none ↔
      t.logErr = none ∧ t.buildErr = none ∧ t.outErr = none) ∧
    (∀ e, (computeGo t order).2 = some e →
      some e ∈ [t.logErr, t.buildErr, t.outErr]) ∧
    (computeGo t order).1 = t.outVal := by
  refine ⟨?_, ?_, rfl⟩
  · rw [show (computeGo t order).2 = firstSome order from rfl,
      firstSome_eq_none_iff]
    constructor
    · intro hall
      exact ⟨hall _ (h.mem_iff.mpr (by simp)),
             hall _ (h.mem_iff.mpr (by simp)),
             hall _ (h.mem_iff.mpr (by simp))⟩
    · intro hn x hx
      obtain ⟨h1, h2, h3⟩ := hn
      have hx2 := h.mem_iff.mp hx
      simp only [List.mem_cons, List.not_mem_nil, or_false] at hx2
      rcases hx2 with h' | h' | h'
      · rw [h', h1]
      · rw [h', h2]
      · rw [h', h3]
  · intro e he
    exact h.mem_iff.mp (firstSome_mem order e he)

/-- C1 witness: with all three tasks succeeding and the collector
producing the empty accumulator, `Compute` returns it with a nil
error. -/
theorem C1_compute_first_error_witness :
    ((computeGo ⟨none, none, some emptyStruct, none⟩ [none, none, none]).2
      = none ↔ (none : Option (List Char)) = none ∧
        (none : Option (List Char)) = none ∧
        (none : Option (List Char)) = none) ∧
    (∀ e, (computeGo ⟨none, none, some emptyStruct, none⟩
        [none, none, none]).2 = some e →
      some e ∈ [(none : Option (List Char)), none, none]) ∧
    (computeGo ⟨none, none, some emptyStruct, none⟩ [none, none, none]).1
      = some emptyStruct :=
  C1_compute_first_error ⟨none, none, some emptyStruct, none⟩
    [none, none, none] (by decide)

theorem resolveDirs_error_of_mem
    (abs : List Char → Except (List Char) (List Char))
    (dirs : List (List Char × List Char))
    (h : ∃ b ∈ dirs, ∃ e, abs b.2 = Except.error e) :
    ∃ e, resolveDirs abs dirs = Except.error e := by
  induction dirs with
  | nil => simp at h
  | cons b rest ih =>
    obtain ⟨label, dir⟩ := b
    obtain ⟨b0, hb0, e, he⟩ := h
    rcases List.mem_cons.mp hb0 with hb | hb
    · subst hb
      simp only at he
      exact ⟨e, by simp [resolveDirs, he]⟩
    · obtain ⟨e2, he2⟩ := ih ⟨b0, hb, e, he⟩
      cases habs : abs dir with
      | error e3 => exact ⟨e3, by simp [resolveDirs, habs]⟩
      | ok a => exact ⟨e2, by simp [resolveDirs, habs, he2]⟩

/-- C9: if resolution of any local directory binding of the plan fails,
`buildfn` returns a PathResolutionError and the backend build entrypoint
is never invoked — resolution is performed before any backend call. -/
theorem C9_path_resolution
    (abs : List Char → Except (List Char) (List Char))
    (dirs : List (List Char × List Char))
    (backend : List (List Char × List Char) → Option (List Char))
    (h : ∃ b ∈ dirs, ∃ e, abs b.2 = Except.error e) :
    (∃ e, (buildfn abs dirs backend).err
      = some (BuildErr.pathResolution e)) ∧
    (buildfn abs dirs backend).backendCalled = false := by
  obtain ⟨e, he⟩ := resolveDirs_error_of_mem abs dirs h
  exact ⟨⟨e, by simp [buildfn, he]⟩, by simp [buildfn, he]⟩

/-- C9 witness: a plan with one local directory binding whose resolution
fails — `buildfn` reports the path error and never calls the backend. -/
theorem C9_path_resolution_witness :
    (∃ e, (buildfn
        (fun _ => Except.error ("getwd: no such file or directory".toList))
        [("ctx".toList, "./src".toList)] (fun _ => none)).err
      = some (BuildErr.pathResolution e)) ∧
    (buildfn
        (fun _ => Except.error ("getwd: no such file or directory".toList))
        [("ctx".toList, "./src".toList)] (fun _ => none)).backendCalled
      = false :=
  C9_path_resolution _ _ _
    ⟨("ctx".toList, "./src".toList), by simp,
     "getwd: no such file or directory".toList, rfl⟩

theorem obind_assoc {α β γ : Type} (x : Option α) (f : α → Option β)
    (g : β → Option γ) :
    (x.bind f).bind g = x.bind fun a => (f a).bind g := by
  cases x <;> rfl

theorem obind_congr {α β : Type} (x : Option α) (f g : α → Option β)
    (h : ∀ a, f a = g a) : x.bind f = x.bind g := by
  cases x <;> simp [h]

theorem fill_cons (acc : RVal) (b : Path × Nat) (bs : List (Path × Nat)) :
    fill acc (b :: bs) = (fillOne acc b.1 b.2).bind fun a => fill a bs := by
  cases h : fillOne acc b.1 b.2 <;> simp [fill, h]

theorem rvInsert_self (k : Path) (x : Nat) (v : RVal) :
    rvInsert k x v k = some x := by
  simp [rvInsert]

theorem rvInsert_other (k q : Path) (x : Nat) (v : RVal) (h : q ≠ k) :
    rvInsert k x v q = v q := by
  simp [rvInsert, h]

theorem rvInsert_comm (k1 k2 : Path) (x1 x2 : Nat) (v : RVal)
    (h : k1 ≠ k2) :
    rvInsert k1 x1 (rvInsert k2 x2 v) = rvInsert k2 x2 (rvInsert k1 x1 v) := by
  have h21 : k2 ≠ k1 := fun hh => h hh.symm
  funext q
  unfold rvInsert
  by_cases h1 : q = k1
  · have h2 : ¬ (q = k2) := fun hh => h (h1.symm.trans hh)
    simp [h1, h2, h]
  · by_cases h2 : q = k2 <;> simp [h1, h2, h, h21]

theorem fillOne_of_none (acc : RVal) (k : Path) (x : Nat)
    (h : acc k = none) :
    fillOne acc k x = some (rvInsert k x acc) := by
  simp [fillOne, h]

theorem fillOne_of_eq (acc : RVal) (k : Path) (x : Nat)
    (h : acc k = some x) :
    fillOne acc k x = some acc := by
  simp [fillOne, h]

theorem fillOne_of_conflict (acc : RVal) (k : Path) (x y : Nat)
    (h : acc k = some y) (hne : y ≠ x) :
    fillOne acc k x = none := by
  simp [fillOne, h, hne]

theorem fillOne_sets (a a2 : RVal) (k : Path) (x : Nat)
    (hone : fillOne a k x = some a2) :
    a2 k = some x ∧ ∀ q, q ≠ k → a2 q = a q := by
  cases ha : a k with
  | none =>
    rw [fillOne_of_none a k x ha] at hone
    have h2 : rvInsert k x a = a2 := Option.some_inj.mp hone
    subst h2
    exact ⟨rvInsert_self k x a, fun q hq => rvInsert_other k q x a hq⟩
  | some y =>
    by_cases hy : y = x
    · subst hy
      rw [fillOne_of_eq a k y ha] at hone
      have h2 : a = a2 := Option.some_inj.mp hone
      subst h2
      exact ⟨ha, fun q _ => rfl⟩
    · rw [fillOne_of_conflict a k x y ha hy] at hone
      cases hone

theorem fillOne_some_of_agree (a a' a2 : RVal) (k : Path) (x : Nat)
    (hag : a' k = none ∨ a' k = a k)
    (hone : fillOne a k x = some a2) :
    ∃ a2', fillOne a' k x = some a2' := by
  rcases hag with h' | h'
  · exact ⟨_, fillOne_of_none a' k x h'⟩
  · cases ha : a k with
    | none =>
      rw [ha] at h'
      exact ⟨_, fillOne_of_none a' k x h'⟩
    | some y =>
      by_cases hy : y = x
      · subst hy
        rw [ha] at h'
        exact ⟨a', fillOne_of_eq a' k y h'⟩
      · rw [fillOne_of_conflict a k x y ha hy] at hone
        cases hone

theorem fill_lookup_outside (bs : List (Path × Nat)) :
    ∀ (acc a : RVal) (q : Path), (∀ b ∈ bs, b.1 ≠ q) →
      fill acc bs = some a → a q = acc q := by
  induction bs with
  | nil =>
    intro acc a q _ hf
    simp [fill] at hf
    rw [hf]
  | cons b bs ih =>
    intro acc a q hq hf
    rw [fill_cons] at hf
    cases hone : fillOne acc b.1 b.2 with
    | none => rw [hone] at hf; cases hf
    | some acc2 =>
      rw [hone, Option.some_bind] at hf
      have h1 : a q = acc2 q :=
        ih acc2 a q (fun x hx => hq x (by simp [hx])) hf
      have h2 : acc2 q = acc q :=
        (fillOne_sets acc acc2 b.1 b.2 hone).2 q (hq b (by simp)).symm
      rw [h1, h2]

theorem fill_isSome_of_agree (bs : List (Path × Nat)) :
    ∀ (a a' : RVal), (∀ b ∈ bs, a' b.1 = none ∨ a' b.1 = a b.1) →
      (fill a bs).isSome → (fill a' bs).isSome := by
  induction bs with
  | nil => intro a a' _ _; simp [fill]
  | cons b bs ih =>
    intro a a' hag h
    rw [fill_cons] at h
    cases hone : fillOne a b.1 b.2 with
    | none => rw [hone] at h; simp at h
    | some a2 =>
      rw [hone, Option.some_bind] at h
      obtain ⟨a2', hone'⟩ :=
        fillOne_some_of_agree a a' a2 b.1 b.2 (hag b (by simp)) hone
      rw [fill_cons, hone', Option.some_bind]
      obtain ⟨hk2, hrest2⟩ := fillOne_sets a a2 b.1 b.2 hone
      obtain ⟨hk2', hrest2'⟩ := fillOne_sets a' a2' b.1 b.2 hone'
      refine ih a2 a2' ?_ h
      intro b2 hb2
      by_cases hq : b2.1 = b.1
      · right; rw [hq, hk2', hk2]
      · rw [hrest2' _ hq, hrest2 _ hq]
        exact hag b2 (by simp [hb2])

theorem fillOne_comm (acc : RVal) (k1 k2 : Path) (x1 x2 : Nat)
    (h : k1 ≠ k2) :
    ((fillOne acc k1 x1).bind fun a => fillOne a k2 x2)
      = ((fillOne acc k2 x2).bind fun a => fillOne a k1 x1) := by
  have h21 : k2 ≠ k1 := fun hh => h hh.symm
  cases hk1 : acc k1 with
  | none =>
    cases hk2 : acc k2 with
    | none =>
      rw [fillOne_of_none acc k1 x1 hk1, fillOne_of_none acc k2 x2 hk2,
        Option.some_bind, Option.some_bind,
        fillOne_of_none _ k2 x2 (by rw [rvInsert_other k1 k2 x1 acc h21]; exact hk2),
        fillOne_of_none _ k1 x1 (by rw [rvInsert_other k2 k1 x2 acc h]; exact hk1),
        rvInsert_comm k2 k1 x2 x1 acc h21]
    | some y2 =>
      by_cases hy2 : y2 = x2
      · subst hy2
        rw [fillOne_of_none acc k1 x1 hk1, fillOne_of_eq acc k2 y2 hk2,
          Option.some_bind, Option.some_bind,
          fillOne_of_eq _ k2 y2 (by rw [rvInsert_other k1 k2 x1 acc h21]; exact hk2),
          fillOne_of_none acc k1 x1 hk1]
      · rw [fillOne_of_none acc k1 x1 hk1,
          fillOne_of_conflict acc k2 x2 y2 hk2 hy2,
          Option.some_bind, Option.none_bind,
          fillOne_of_conflict _ k2 x2 y2 (by rw [rvInsert_other k1 k2 x1 acc h21]; exact hk2) hy2]
  | some y1 =>
    by_cases hy1 : y1 = x1
    · subst hy1
      cases hk2 : acc k2 with
      | none =>
        rw [fillOne_of_eq acc k1 y1 hk1, fillOne_of_none acc k2 x2 hk2,
          Option.some_bind, Option.some_bind,
          fillOne_of_none acc k2 x2 hk2,
          fillOne_of_eq _ k1 y1 (by rw [rvInsert_other k2 k1 x2 acc h]; exact hk1)]
      | some y2 =>
        by_cases hy2 : y2 = x2
        · subst hy2
          rw [fillOne_of_eq acc k1 y1 hk1, fillOne_of_eq acc k2 y2 hk2,
            Option.some_bind, Option.some_bind,
            fillOne_of_eq acc k2 y2 hk2, fillOne_of_eq acc k1 y1 hk1]
        · rw [fillOne_of_eq acc k1 y1 hk1,
            fillOne_of_conflict acc k2 x2 y2 hk2 hy2,
            Option.some_bind, Option.none_bind,
            fillOne_of_conflict acc k2 x2 y2 hk2 hy2]
    · cases hk2 : acc k2 with
      | none =>
        rw [fillOne_of_conflict acc k1 x1 y1 hk1 hy1,
          fillOne_of_none acc k2 x2 hk2,
          Option.none_bind, Option.some_bind,
          fillOne_of_conflict _ k1 x1 y1 (by rw [rvInsert_other k2 k1 x2 acc h]; exact hk1) hy1]
      | some y2 =>
        by_cases hy2 : y2 = x2
        · subst hy2
          rw [fillOne_of_conflict acc k1 x1 y1 hk1 hy1,
            fillOne_of_eq acc k2 y2 hk2,
            Option.none_bind, Option.some_bind,
            fillOne_of_conflict acc k1 x1 y1 hk1 hy1]
        · rw [fillOne_of_conflict acc k1 x1 y1 hk1 hy1,
            fillOne_of_conflict acc k2 x2 y2 hk2 hy2,
            Option.none_bind, Option.none_bind]

theorem fill_fillOne_comm (bs : List (Path × Nat)) :
    ∀ (acc : RVal) (k : Path) (x : Nat), (∀ b ∈ bs, b.1 ≠ k) →
      ((fillOne acc k x).bind fun a => fill a bs)
        = ((fill acc bs).bind fun a => fillOne a k x) := by
  induction bs with
  | nil =>
    intro acc k x _
    cases h : fillOne acc k x <;> simp [fill, h]
  | cons b bs ih =>
    intro acc k x hk
    have hbk : k ≠ b.1 := fun hh => (hk b (by simp)) hh.symm
    calc ((fillOne acc k x).bind fun a => fill a (b :: bs))
        = (fillOne acc k x).bind fun a =>
            (fillOne a b.1 b.2).bind fun a2 => fill a2 bs := by
          exact obind_congr _ _ _ (fun a => fill_cons a b bs)
      _ = ((fillOne acc k x).bind fun a => fillOne a b.1 b.2).bind
            fun a2 => fill a2 bs := by
          rw [obind_assoc]
      _ = ((fillOne acc b.1 b.2).bind fun a => fillOne a k x).bind
            fun a2 => fill a2 bs := by
          rw [fillOne_comm acc k b.1 x b.2 hbk]
      _ = (fillOne acc b.1 b.2).bind fun a =>
            (fillOne a k x).bind fun a2 => fill a2 bs := by
          rw [obind_assoc]
      _ = (fillOne acc b.1 b.2).bind fun a =>
            (fill a bs).bind fun a2 => fillOne a2 k x := by
          exact obind_congr _ _ _
            (fun a => ih a k x (fun b2 hb2 => hk b2 (by simp [hb2])))
      _ = ((fillOne acc b.1 b.2).bind fun a => fill a bs).bind
            fun a2 => fillOne a2 k x := by
          rw [obind_assoc]
      _ = (fill acc (b :: bs)).bind fun a2 => fillOne a2 k x := by
          rw [fill_cons]

theorem fill_comm (bsA bsB : List (Path × Nat)) :
    ∀ acc : RVal, (∀ b ∈ bsA, ∀ b2 ∈ bsB, b.1 ≠ b2.1) →
      ((fill acc bsA).bind fun a => fill a bsB)
        = ((fill acc bsB).bind fun a => fill a bsA) := by
  induction bsA with
  | nil =>
    intro acc _
    cases h : fill acc bsB <;> simp [fill, h]
  | cons b bsA ih =>
    intro acc hdisj
    calc ((fill acc (b :: bsA)).bind fun a => fill a bsB)
        = ((fillOne acc b.1 b.2).bind fun a => fill a bsA).bind
            fun a => fill a bsB := by
          rw [fill_cons]
      _ = (fillOne acc b.1 b.2).bind fun a =>
            (fill a bsA).bind fun a2 => fill a2 bsB := by
          rw [obind_assoc]
      _ = (fillOne acc b.1 b.2).bind fun a =>
            (fill a bsB).bind fun a2 => fill a2 bsA := by
          exact obind_congr _ _ _
            (fun a => ih a (fun b2 hb2 => hdisj b2 (by simp [hb2])))
      _ = ((fillOne acc b.1 b.2).bind fun a => fill a bsB).bind
            fun a2 => fill a2 bsA := by
          rw [obind_assoc]
      _ = ((fill acc bsB).bind fun a => fillOne a b.1 b.2).bind
            fun a2 => fill a2 bsA := by
          rw [fill_fillOne_comm bsB acc b.1 b.2
            (fun b2 hb2 => (hdisj b (by simp) b2 hb2).symm)]
      _ = (fill acc bsB).bind fun a =>
            (fillOne a b.1 b.2).bind fun a2 => fill a2 bsA := by
          rw [obind_assoc]
      _ = (fill acc bsB).bind fun a => fill a (b :: bsA) := by
          exact obind_congr _ _ _ (fun a => (fill_cons a b bsA).symm)

/-- C8: for any two well-formed entries (".cue"-suffixed names, decoded
bindings each merging cleanly into the empty accumulator) at disjoint
paths, collecting them in either stream order produces the same
ResultValue. -/
theorem C8_order_independence (nameA nameB : Path)
    (bsA bsB : List (Path × Nat)) (vA vB : RVal)
    (hca : hasCueSuffix nameA = true) (hcb : hasCueSuffix nameB = true)
    (hA : fill emptyStruct bsA = some vA)
    (hB : fill emptyStruct bsB = some vB)
    (hdisj : ∀ b ∈ bsA, ∀ b2 ∈ bsB, b.1 ≠ b2.1) :
    outputfn [TarItem.entry nameA (some bsA), TarItem.entry nameB (some bsB)]
      = outputfn [TarItem.entry nameB (some bsB), TarItem.entry nameA (some bsA)] := by
  have hvA_none : ∀ b2 ∈ bsB, vA b2.1 = none := by
    intro b2 hb2
    have h1 := fill_lookup_outside bsA emptyStruct vA b2.1
      (fun b hb => hdisj b hb b2 hb2) hA
    rw [h1]; rfl
  have hvB_none : ∀ b ∈ bsA, vB b.1 = none := by
    intro b hb
    have h1 := fill_lookup_outside bsB emptyStruct vB b.1
      (fun b2 hb2 => (hdisj b hb b2 hb2).symm) hB
    rw [h1]; rfl
  have hAB : (fill vA bsB).isSome := by
    refine fill_isSome_of_agree bsB emptyStruct vA ?_ ?_
    · intro b2 hb2; exact Or.inl (hvA_none b2 hb2)
    · rw [hB]; rfl
  have hBA : (fill vB bsA).isSome := by
    refine fill_isSome_of_agree bsA emptyStruct vB ?_ ?_
    · intro b hb; exact Or.inl (hvB_none b hb)
    · rw [hA]; rfl
  obtain ⟨wAB, hwAB⟩ := Option.isSome_iff_exists.mp hAB
  obtain ⟨wBA, hwBA⟩ := Option.isSome_iff_exists.mp hBA
  have hcomm := fill_comm bsA bsB emptyStruct hdisj
  rw [hA, hB, Option.some_bind, Option.some_bind, hwAB, hwBA] at hcomm
  have hw : wAB = wBA := Option.some_inj.mp hcomm
  have e1 : outputfn
      [TarItem.entry nameA (some bsA), TarItem.entry nameB (some bsB)]
      = Except.ok wAB := by
    unfold outputfn
    simp [outputfnFrom, hca, hcb, hA, hwAB]
  have e2 : outputfn
      [TarItem.entry nameB (some bsB), TarItem.entry nameA (some bsA)]
      = Except.ok wBA := by
    unfold outputfn
    simp [outputfnFrom, hca, hcb, hB, hwBA]
  rw [e1, e2, hw]

/-- C8 witness: the entries "a.cue" binding path "x" to 1 and "b.cue"
binding path "y" to 2 collect to the same ResultValue in both stream
orders. -/
theorem C8_order_independence_witness :
    fill emptyStruct [((['x'] : Path), 1)]
      = some (rvInsert ['x'] 1 emptyStruct) ∧
    fill emptyStruct [((['y'] : Path), 2)]
      = some (rvInsert ['y'] 2 emptyStruct) ∧
    outputfn [TarItem.entry ("a.cue".toList) (some [(['x'], 1)]),
              TarItem.entry ("b.cue".toList) (some [(['y'], 2)])]
      = outputfn [TarItem.entry ("b.cue".toList) (some [(['y'], 2)]),
                  TarItem.entry ("a.cue".toList) (some [(['x'], 1)])] :=
  ⟨rfl, rfl,
   C8_order_independence ("a.cue".toList) ("b.cue".toList)
     [(['x'], 1)] [(['y'], 2)]
     (rvInsert ['x'] 1 emptyStruct) (rvInsert ['y'] 2 emptyStruct)
     (by decide) (by decide) rfl rfl (by decide)⟩

end Dagger
